import Mathlib

/-!
Shallow embedding of `EwladMPRef.py` (EwaldBlock and HadamardBlock forward
passes) over exact rational arithmetic.  Tensors are nested lists of `ℚ`;
the elementwise transcendental kernels (`torch.cos`, `torch.sin`,
`torch.sinc`) and the externally supplied sublayers (`ResidualLayer`,
the layers produced by `get_mlp`) are abstract function parameters, since
their internals are outside the module under verification.
-/

namespace EwaldMP

/-- A 2-d tensor: a list of rows of rationals. -/
abbrev Mat : Type := List (List ℚ)

/-- Dot product of two vectors (`torch.sum(a * b, dim=-1)`); zips truncate
at the shorter operand, which never happens on well-shaped inputs. -/
def dotList (a b : List ℚ) : ℚ :=
  (List.zipWith (fun p q => p * q) a b).sum

/-- Matrix–vector product. -/
def matVec (W : Mat) (v : List ℚ) : List ℚ :=
  W.map (fun row => dotList row v)

/-- `torch.matmul` for 2-d operands, entrywise:
`(matMul A B)[i][j] = Σ_t A[i][t] * B[t][j]`. -/
def matMul (A B : Mat) : Mat :=
  A.map (fun row =>
    (List.range ((B.headD []).length)).map (fun j =>
      dotList row (B.map (fun r => r.getD j 0))))

/-- `Tensor.T` for a 2-d tensor (rectangular on all real inputs). -/
def transposeM (A : Mat) : Mat :=
  (List.range ((A.headD []).length)).map (fun j => A.map (fun r => r.getD j 0))

/-- The external `Dense` collaborator
(`ocpmodels.models.gemnet.layers.base_layers.Dense`): an affine map with
elementwise activation; `linear.weight` is exposed for direct inspection,
as the EwaldBlock's periodic Fourier filter reads it. -/
structure Dense where
  weight : Mat
  bias : List ℚ
  act : ℚ → ℚ

/-- Row action of a `Dense` layer: activation of the affine image. -/
def Dense.apply (d : Dense) (v : List ℚ) : List ℚ :=
  List.zipWith (fun a b => d.act (a + b)) (matVec d.weight v) d.bias

/-- The external `ScaleFactor` collaborator
(`ocpmodels.modules.scaling.scale_factor.ScaleFactor`): scalar rescaling
`x * scale_factor`; the `ref` argument is consumed only by offline fitting
and never enters the returned value. -/
def scaleFactorApply (scale_factor : ℚ) (x _ref : Mat) : Mat :=
  x.map (fun row => row.map (fun q => q * scale_factor))

/-- State of one `EwaldBlock` (`EwladMPRef.py`, lines 8–98): flags and
scalars from `__init__`, the shared downprojection `self.down`, the
upprojection `self.up`, the abstract pre-residual sublayer, the list of
update sublayers from `get_mlp`, and the optional scale factor
(`self.ewald_scale_sum`, present iff `name is not None`). -/
structure EwaldBlock where
  use_pbc : Bool
  return_k_params : Bool
  delta_k : ℚ
  k_rbf_values : Mat
  down : Dense
  up : Dense
  pre_residual : List ℚ → List ℚ
  ewald_layers : List (List ℚ → List ℚ)
  ewald_scale_sum : Option ℚ

/-- Return value of `EwaldBlock.forward`: a bare update tensor, or the
update together with the dot products and damping factors
(lines 214–217). -/
inductive EwaldResult where
  | withParams (h_update dot sinc_damping : Mat)
  | updateOnly (h_update : Mat)
deriving DecidableEq

/-- Lines 142–143: `dot[a][j] = Σ_d k[batch_seg[a]][j][d] * x[a][d]`
(gather the owning structure's reciprocal vectors, multiply by the atom
position, sum the last axis). -/
def computeDot (k : List Mat) (x : Mat) (batch_seg : List ℕ) : Mat :=
  List.zipWith
    (fun b xi => (k.getD b []).map (fun kj => dotList kj xi))
    batch_seg x

/-- Lines 145–154: the sinc damping factor, materialised at shape
(numAtoms, numK).  Aperiodic case: product of three sinc terms of the
half-`delta_k`-scaled position components, expanded across the `numK`
reciprocal vectors; periodic case: the scalar `1`, which broadcasts to
an all-ones tensor. -/
def computeSincDamping (tsinc : ℚ → ℚ) (blk : EwaldBlock) (x : Mat)
    (numK : ℕ) : Mat :=
  if blk.use_pbc = false then
    x.map (fun xi =>
      List.replicate numK
        (tsinc ((1 / 2 : ℚ) * blk.delta_k * xi.getD 0 0)
          * tsinc ((1 / 2 : ℚ) * blk.delta_k * xi.getD 1 0)
          * tsinc ((1 / 2 : ℚ) * blk.delta_k * xi.getD 2 0)))
  else
    x.map (fun _ => List.replicate numK 1)

/-- The dot-product tensor forward actually uses: the caller-supplied one
when present, otherwise the one computed at lines 141–143. -/
def resolveDot (k : List Mat) (x : Mat) (batch_seg : List ℕ)
    (dot : Option Mat) : Mat :=
  match dot with
  | none => computeDot k x batch_seg
  | some dm => dm

/-- The damping tensor forward actually uses: the caller-supplied one when
present, otherwise the one computed at lines 145–154. -/
def resolveSinc (tsinc : ℚ → ℚ) (blk : EwaldBlock) (x : Mat) (numK : ℕ)
    (sinc_damping : Option Mat) : Mat :=
  match sinc_damping with
  | none => computeSincDamping tsinc blk x numK
  | some sm => sm

/-- Lines 156–169, per-structure slice of `self.kfilter`: under PBC the
transposed product of the upprojection and downprojection weights,
otherwise down- then up-projection of the precomputed RBF values. -/
def kfilterBase (blk : EwaldBlock) : Mat :=
  if blk.use_pbc then
    transposeM (matMul blk.up.weight blk.down.weight)
  else
    blk.k_rbf_values.map (fun v => blk.up.apply (blk.down.apply v))

/-- `self.kfilter` after `.unsqueeze(0).expand(num_batch, -1, -1)`
(lines 158–169): the base filter broadcast over the batch dimension. -/
def computeKfilter (blk : EwaldBlock) (num_batch : ℕ) : List Mat :=
  List.replicate num_batch (kfilterBase blk)

/-- One entry of a structure-factor accumulator (lines 172–191):
`index_add_` over `batch_seg` of
`hres[a][e] * (sinc_damping[a][j] * trig(dot[a][j]))`. -/
def sfSum (trig : ℚ → ℚ) (b : ℕ) (batch_seg : List ℕ)
    (hres dotM sincM : Mat) (j e : ℕ) : ℚ :=
  ((batch_seg.zip (hres.zip (dotM.zip sincM))).map (fun p =>
    if p.1 = b then
      p.2.1.getD e 0 * (p.2.2.2.getD j 0 * trig (p.2.2.1.getD j 0))
    else 0)).sum

/-- A full structure-factor tensor of shape
(num_batch, dot.shape[-1], hres.shape[-1]) (lines 172–191). -/
def sfMatrix (trig : ℚ → ℚ) (num_batch : ℕ) (batch_seg : List ℕ)
    (hres dotM sincM : Mat) : List Mat :=
  (List.range num_batch).map (fun b =>
    (List.range ((dotM.headD []).length)).map (fun j =>
      (List.range ((hres.headD []).length)).map (fun e =>
        sfSum trig b batch_seg hres dotM sincM j e)))

/-- One atom's row of `h_update` (lines 194–205): filter the structure
factors, re-weight by the damped cosine / sine of the atom's phases, sum
over the reciprocal-vector axis and scale by `0.01`.  `sfR`, `sfI`, `kf`
are the slices of `sf_real`, `sf_imag`, `self.kfilter` selected by the
atom's batch segment; `dj`, `sj` the atom's rows of `dot` and
`sinc_damping`. -/
def ewaldUpdateRow (tcos tsin : ℚ → ℚ) (sfR sfI kf : Mat)
    (numK emb : ℕ) (dj sj : List ℚ) : List ℚ :=
  (List.range emb).map (fun e =>
    (1 / 100 : ℚ) *
      ((List.range numK).map (fun j =>
        (sfR.getD j []).getD e 0 * (kf.getD j []).getD e 0
            * (sj.getD j 0 * tcos (dj.getD j 0))
          + (sfI.getD j []).getD e 0 * (kf.getD j []).getD e 0
            * (sj.getD j 0 * tsin (dj.getD j 0)))).sum)

/-- Sequential application of the `get_mlp` sublayers (lines 211–212),
each acting row-wise on the update tensor. -/
def applyLayers (layers : List (List ℚ → List ℚ)) (m : Mat) : Mat :=
  layers.foldl (fun acc f => acc.map f) m

/-- Lines 138 and 156–212 of `EwaldBlock.forward`, for already-resolved
`dot` / `sinc_damping` tensors: pre-residual, Fourier filter, structure
factors, filtered inverse transform, optional rescaling, update
sublayers. -/
def ewaldPipeline (tcos tsin : ℚ → ℚ) (blk : EwaldBlock) (h : Mat)
    (num_batch : ℕ) (batch_seg : List ℕ) (dotM sincM : Mat) : Mat :=
  let hres := h.map blk.pre_residual
  let kfilter := computeKfilter blk num_batch
  let sf_real := sfMatrix tcos num_batch batch_seg hres dotM sincM
  let sf_imag := sfMatrix tsin num_batch batch_seg hres dotM sincM
  let numK := (dotM.headD []).length
  let emb := (hres.headD []).length
  let h_update :=
    (batch_seg.zip (dotM.zip sincM)).map (fun p =>
      ewaldUpdateRow tcos tsin (sf_real.getD p.1 []) (sf_imag.getD p.1 [])
        (kfilter.getD p.1 []) numK emb p.2.1 p.2.2)
  let h_update :=
    match blk.ewald_scale_sum with
    | some c => scaleFactorApply c h_update h
    | none => h_update
  applyLayers blk.ewald_layers h_update

/-- `EwaldBlock.forward` (lines 125–217).  `tcos`, `tsin`, `tsinc` stand
for the elementwise `torch.cos`, `torch.sin`, `torch.sinc`.  `dot` and
`sinc_damping` are `none` when the caller leaves them unsupplied, in
which case they are computed here (lines 141–154). -/
def EwaldBlock.forward (tcos tsin tsinc : ℚ → ℚ) (blk : EwaldBlock)
    (h x : Mat) (k : List Mat) (num_batch : ℕ) (batch_seg : List ℕ)
    (dot sinc_damping : Option Mat) : EwaldResult :=
  let dotM :=
    match dot with
    | none => computeDot k x batch_seg
    | some d => d
  let sincM :=
    match sinc_damping with
    | none => computeSincDamping tsinc blk x ((k.headD []).length)
    | some s => s
  let h_update := ewaldPipeline tcos tsin blk h num_batch batch_seg dotM sincM
  if blk.return_k_params then
    EwaldResult.withParams h_update dotM sincM
  else
    EwaldResult.updateOnly h_update

/-- Modelled from the spec: the `ScalingFactor` collaborator referenced
by `HadamardBlock.__init__` (line 257) is absent from the module — only
`ScaleFactor` is imported — so its behaviour is taken from the spec:
a named scalar rescaling, "callable(value, ref) → rescaled value", whose
fixed-or-fitted policy is external and consumed opaquely. -/
structure ScalingFactor where
  scale_factor : ℚ

/-- Modelled from the spec: the call shape at line 293 is
`self.scale_sum(h, x2)` and spec step 5 reads "rescale the aggregate
using the configured scale factor with h as reference", so the first
positional argument is the reference and the second the value being
rescaled; the reference never enters the returned value. -/
def ScalingFactor.apply (sf : ScalingFactor) (_x_ref x : Mat) : Mat :=
  x.map (fun row => row.map (fun q => q * sf.scale_factor))

/-- State of one `HadamardBlock` (lines 221–265): the radial-basis
projection `self.dense_bf`, the scale factor `self.scale_sum`, the
abstract pre-residual sublayer, and the `get_mlp` update sublayers. -/
structure HadamardBlock where
  dense_bf : Dense
  scale_sum : ScalingFactor
  pre_residual : List ℚ → List ℚ
  layers : List (List ℚ → List ℚ)

/-- `torch_scatter.scatter(src, index, dim=0, dim_size, reduce="sum")`
for 2-d `src`: row `t` of the output is the sum of the rows of `src`
whose index entry is `t`; unreferenced rows are zero-filled. -/
def scatterSum (src : Mat) (index : List ℕ) (dim_size : ℕ) : Mat :=
  (List.range dim_size).map (fun t =>
    (List.range ((src.headD []).length)).map (fun e =>
      ((index.zip src).map (fun p =>
        if p.1 = t then p.2.getD e 0 else 0)).sum))

/-- The per-atom aggregate `x2` of `HadamardBlock.forward`
(lines 284–291): Hadamard edge messages scatter-summed into their target
atoms, sized to the atom count. -/
def HadamardBlock.aggregate (blk : HadamardBlock) (h bf : Mat)
    (idx_s idx_t : List ℕ) : Mat :=
  let nAtoms := h.length
  let h_res := h.map blk.pre_residual
  let mlp_bf := bf.map blk.dense_bf.apply
  let x := List.zipWith
    (fun s mbf => List.zipWith (fun a b => a * b) (h_res.getD s []) mbf)
    idx_s mlp_bf
  scatterSum x idx_t nAtoms

/-- `HadamardBlock.forward` (lines 277–298): aggregate, rescale with `h`
as reference, then apply the update sublayers. -/
def HadamardBlock.forward (blk : HadamardBlock) (h bf : Mat)
    (idx_s idx_t : List ℕ) : Mat :=
  let x2 := blk.aggregate h bf idx_s idx_t
  let x3 := blk.scale_sum.apply h x2
  applyLayers blk.layers x3

/-- The names bound at module scope of `EwladMPRef.py` when
`HadamardBlock.__init__` runs: the four imports (lines 1–5) and the two
class statements. -/
def moduleScopeNames : List String :=
  ["torch", "scatter", "Dense", "ResidualLayer", "ScaleFactor",
   "EwaldBlock", "HadamardBlock"]

/-- The global name looked up by `HadamardBlock.__init__` at line 257. -/
def hadamardInitScaleName : String := "ScalingFactor"

/-- `HadamardBlock.__init__` (lines 242–265) as a fallible constructor:
Python resolves the global `ScalingFactor` at line 257 against the module
scope, raising `NameError` when it is unbound; otherwise the block's
submodules are assembled. -/
def HadamardBlock.init (dense_bf : Dense) (c : ℚ)
    (pre_residual : List ℚ → List ℚ) (layers : List (List ℚ → List ℚ)) :
    Except String HadamardBlock :=
  if hadamardInitScaleName ∈ moduleScopeNames then
    Except.ok
      { dense_bf := dense_bf
        scale_sum := { scale_factor := c }
        pre_residual := pre_residual
        layers := layers }
  else
    Except.error "NameError: name ScalingFactor is not defined"

/-- Identity row map: a concrete stand-in for the external residual
sublayers in concrete instantiations. -/
def idRow : List ℚ → List ℚ := fun v => v

/-- A concrete 1-by-1 `Dense` layer with identity activation. -/
def denseOne : Dense := { weight := [[1]], bias := [0], act := fun q => q }

/-- A concrete periodic `EwaldBlock` for instantiations. -/
def ewaldPbcBlock : EwaldBlock :=
  { use_pbc := true
    return_k_params := true
    delta_k := 0
    k_rbf_values := []
    down := denseOne
    up := denseOne
    pre_residual := idRow
    ewald_layers := []
    ewald_scale_sum := none }

/-- A concrete aperiodic `EwaldBlock` with voxel resolution 2. -/
def ewaldAperiodicBlock : EwaldBlock :=
  { ewaldPbcBlock with use_pbc := false, delta_k := 2, k_rbf_values := [[1]] }

/-- A concrete `HadamardBlock` for instantiations. -/
def hadamardBlockW : HadamardBlock :=
  { dense_bf := denseOne
    scale_sum := { scale_factor := 1 }
    pre_residual := idRow
    layers := [] }

/-- A concrete stand-in for elementwise `torch.cos`. -/
def cosW : ℚ → ℚ := fun _ => 1

/-- A concrete stand-in for elementwise `torch.sin`. -/
def sinW : ℚ → ℚ := fun _ => 0

/-- A concrete stand-in for elementwise `torch.sinc`, with `sincW 0 = 1`. -/
def sincW : ℚ → ℚ := fun q => 1 - q

/-! Helper lemmas about list indexing, broadcasting and the pipeline
stages. -/

theorem getD_map_of_lt {α β : Type} (f : α → β) (l : List α) (i : ℕ)
    (d : β) (d0 : α) (h : i < l.length) :
    (l.map f).getD i d = f (l.getD i d0) := by
  simp [List.getD_eq_getElem?_getD, List.getElem?_eq_getElem, h]

theorem getD_rangeMap_of_lt {β : Type} (f : ℕ → β) (n i : ℕ) (d : β)
    (h : i < n) :
    ((List.range n).map f).getD i d = f i := by
  rw [getD_map_of_lt f (List.range n) i d 0 (by simpa using h)]
  congr 1
  simp [List.getD_eq_getElem?_getD, List.getElem?_range h]

theorem getD_replicate_of_lt {α : Type} (a d : α) {n b : ℕ} (h : b < n) :
    (List.replicate n a).getD b d = a := by
  simp [List.getD_eq_getElem?_getD, List.getElem?_replicate_of_lt h]

theorem headD_map {α β : Type} (f : α → β) (l : List α) (d : β) (d0 : α)
    (h : l ≠ []) :
    (l.map f).headD d = f (l.headD d0) := by
  cases l with
  | nil => exact absurd rfl h
  | cons a t => rfl

theorem zipWith_replicate_left {α β γ : Type} (f : α → β → γ) (c : α)
    (l : List β) (n : ℕ) (h : l.length = n) :
    List.zipWith f (List.replicate n c) l = l.map (f c) := by
  induction l generalizing n with
  | nil => subst h; rfl
  | cons b t ih =>
    subst h
    simp only [List.length_cons, List.replicate_succ, List.zipWith_cons_cons,
      List.map_cons]
    rw [ih t.length rfl]

theorem zip_replicate_left {α β : Type} (c : α) (l : List β) (n : ℕ)
    (h : l.length = n) :
    (List.replicate n c).zip l = l.map (fun b => (c, b)) :=
  zipWith_replicate_left Prod.mk c l n h

theorem exists_of_mem_zipWith {α β γ : Type} (f : α → β → γ) :
    ∀ (a : List α) (b : List β) (c : γ), c ∈ List.zipWith f a b →
      ∃ x ∈ a, ∃ y ∈ b, c = f x y
  | x :: xs, y :: ys, c, h => by
    rw [List.zipWith_cons_cons] at h
    rcases List.mem_cons.1 h with h1 | h2
    · exact ⟨x, List.mem_cons_self x xs, y, List.mem_cons_self y ys, h1⟩
    · obtain ⟨x0, hx0, y0, hy0, rfl⟩ := exists_of_mem_zipWith f xs ys c h2
      exact ⟨x0, List.mem_cons_of_mem x hx0, y0, List.mem_cons_of_mem y hy0,
        rfl⟩
  | [], _, c, h => by simp at h
  | _ :: _, [], c, h => by simp at h

theorem applyLayers_cons (f : List ℚ → List ℚ)
    (fs : List (List ℚ → List ℚ)) (m : Mat) :
    applyLayers (f :: fs) m = applyLayers fs (m.map f) := rfl

theorem applyLayers_append_mat (layers : List (List ℚ → List ℚ)) :
    ∀ A B : Mat,
      applyLayers layers (A ++ B) = applyLayers layers A ++ applyLayers layers B := by
  induction layers with
  | nil => intro A B; rfl
  | cons f fs ih =>
    intro A B
    rw [applyLayers_cons, List.map_append, ih, applyLayers_cons,
      applyLayers_cons]

theorem applyLayers_length (layers : List (List ℚ → List ℚ)) :
    ∀ m : Mat, (applyLayers layers m).length = m.length := by
  induction layers with
  | nil => intro m; rfl
  | cons f fs ih => intro m; rw [applyLayers_cons, ih, List.length_map]

theorem applyLayers_rowlen (embA : ℕ) (layers : List (List ℚ → List ℚ)) :
    (∀ f ∈ layers, ∀ v : List ℚ, (f v).length = v.length) →
    ∀ m : Mat, (∀ r ∈ m, r.length = embA) →
    ∀ r ∈ applyLayers layers m, r.length = embA := by
  induction layers with
  | nil => intro _ m hm; exact hm
  | cons f fs ih =>
    intro hl m hm
    rw [applyLayers_cons]
    refine ih (fun g hg v => hl g (List.mem_cons_of_mem f hg) v) (m.map f) ?_
    intro r hr
    obtain ⟨a, ha, rfl⟩ := List.mem_map.1 hr
    rw [hl f (List.mem_cons_self f fs) a]
    exact hm a ha

theorem sfSum_append (trig : ℚ → ℚ) (b : ℕ) (bsA bsB : List ℕ)
    (hA hB dA dB sA sB : Mat) (j e : ℕ)
    (h1 : bsA.length = hA.length) (h2 : hA.length = dA.length)
    (h3 : dA.length = sA.length) :
    sfSum trig b (bsA ++ bsB) (hA ++ hB) (dA ++ dB) (sA ++ sB) j e
      = sfSum trig b bsA hA dA sA j e + sfSum trig b bsB hB dB sB j e := by
  unfold sfSum
  rw [List.zip_append h3,
    List.zip_append (by rw [List.length_zip, ← h3, Nat.min_self, h2]),
    List.zip_append (by
      rw [List.length_zip, List.length_zip, ← h3, Nat.min_self, ← h2,
        Nat.min_self, h1]),
    List.map_append, List.sum_append]

theorem sfSum_replicate_self (trig : ℚ → ℚ) (b n : ℕ)
    (hres dotM sincM : Mat) (hh : hres.length = n) (hd : dotM.length = n)
    (hs : sincM.length = n) (j e : ℕ) :
    sfSum trig b (List.replicate n b) hres dotM sincM j e
      = ((hres.zip (dotM.zip sincM)).map (fun r =>
          r.1.getD e 0 * (r.2.2.getD j 0 * trig (r.2.1.getD j 0)))).sum := by
  unfold sfSum
  rw [zip_replicate_left b (hres.zip (dotM.zip sincM)) n
    (by rw [List.length_zip, List.length_zip, hd, hs, Nat.min_self, hh,
      Nat.min_self]),
    List.map_map]
  apply congrArg
  apply List.map_congr_left
  intro r _
  simp

theorem sfSum_replicate_ne (trig : ℚ → ℚ) (b c n : ℕ)
    (hres dotM sincM : Mat) (hbc : c ≠ b) (j e : ℕ) :
    sfSum trig b (List.replicate n c) hres dotM sincM j e = 0 := by
  unfold sfSum
  apply List.sum_eq_zero
  intro q hq
  obtain ⟨p, hp, rfl⟩ := List.mem_map.1 hq
  rcases p with ⟨p1, p2⟩
  have hp1 : p1 ∈ List.replicate n c := (List.of_mem_zip hp).1
  rw [if_neg (by rw [List.eq_of_mem_replicate hp1]; exact hbc)]

theorem sfMatrix_getD (trig : ℚ → ℚ) (nb : ℕ) (bs : List ℕ)
    (hres dotM sincM : Mat) (b : ℕ) (hb : b < nb) :
    (sfMatrix trig nb bs hres dotM sincM).getD b []
      = (List.range ((dotM.headD []).length)).map (fun j =>
          (List.range ((hres.headD []).length)).map (fun e =>
            sfSum trig b bs hres dotM sincM j e)) := by
  unfold sfMatrix
  exact getD_rangeMap_of_lt _ nb b [] hb

theorem computeKfilter_getD (blk : EwaldBlock) (nb b : ℕ) (hb : b < nb) :
    (computeKfilter blk nb).getD b [] = kfilterBase blk :=
  getD_replicate_of_lt _ _ hb

theorem computeDot_two_structures (K1 K2 : Mat) (x1 x2 : Mat) (n1 n2 : ℕ)
    (hx1 : x1.length = n1) (hx2 : x2.length = n2) :
    computeDot [K1, K2] (x1 ++ x2)
        (List.replicate n1 0 ++ List.replicate n2 1)
      = computeDot [K1] x1 (List.replicate n1 0)
        ++ computeDot [K2] x2 (List.replicate n2 0) := by
  unfold computeDot
  rw [List.zipWith_append _ _ _ _ _ (by simp [hx1]),
    zipWith_replicate_left _ 0 x1 n1 hx1,
    zipWith_replicate_left _ 1 x2 n2 hx2,
    zipWith_replicate_left _ 0 x1 n1 hx1,
    zipWith_replicate_left _ 0 x2 n2 hx2]
  rfl

theorem computeSincDamping_append (tsinc : ℚ → ℚ) (blk : EwaldBlock)
    (x1 x2 : Mat) (numK : ℕ) :
    computeSincDamping tsinc blk (x1 ++ x2) numK
      = computeSincDamping tsinc blk x1 numK
        ++ computeSincDamping tsinc blk x2 numK := by
  by_cases hc : blk.use_pbc = false <;>
    simp [computeSincDamping, hc, List.map_append]

theorem transposeM_matMul_entry (U D : Mat) (e j : ℕ)
    (he : e < U.length) (hj : j < (D.headD []).length) :
    ((transposeM (matMul U D)).getD j []).getD e 0
      = dotList (U.getD e []) (D.map (fun r => r.getD j 0)) := by
  have hUne : U ≠ [] := by
    intro h0
    rw [h0] at he
    simp at he
  have hhead : ((matMul U D).headD []).length = (D.headD []).length := by
    unfold matMul
    rw [headD_map _ U [] [] hUne]
    simp
  unfold transposeM
  rw [getD_rangeMap_of_lt _ _ j [] (by rw [hhead]; exact hj)]
  rw [getD_map_of_lt _ (matMul U D) e 0 []
    (by simpa [matMul] using he)]
  unfold matMul
  rw [getD_map_of_lt _ U e [] [] he]
  rw [getD_rangeMap_of_lt _ _ j 0 hj]

theorem ewaldUpdateRow_length (tcos tsin : ℚ → ℚ) (sfR sfI kf : Mat)
    (numK emb : ℕ) (dj sj : List ℚ) :
    (ewaldUpdateRow tcos tsin sfR sfI kf numK emb dj sj).length = emb := by
  simp [ewaldUpdateRow]

theorem ewaldPipeline_length (tcos tsin : ℚ → ℚ) (blk : EwaldBlock)
    (h : Mat) (num_batch : ℕ) (batch_seg : List ℕ) (dotM sincM : Mat)
    (hbs : batch_seg.length = h.length) (hd : dotM.length = h.length)
    (hs : sincM.length = h.length) :
    (ewaldPipeline tcos tsin blk h num_batch batch_seg dotM sincM).length
      = h.length := by
  simp only [ewaldPipeline]
  cases blk.ewald_scale_sum <;>
    simp [applyLayers_length, scaleFactorApply, List.length_zip, hbs, hd, hs]

theorem ewaldPipeline_rowlen (tcos tsin : ℚ → ℚ) (blk : EwaldBlock)
    (h : Mat) (num_batch : ℕ) (batch_seg : List ℕ) (dotM sincM : Mat)
    (embA : ℕ)
    (hpre : ∀ row ∈ h, (blk.pre_residual row).length = embA)
    (hlayers : ∀ f ∈ blk.ewald_layers, ∀ v : List ℚ, (f v).length = v.length)
    (hne : h ≠ []) :
    ∀ r ∈ ewaldPipeline tcos tsin blk h num_batch batch_seg dotM sincM,
      r.length = embA := by
  have hemb : ((h.map blk.pre_residual).headD []).length = embA := by
    rw [headD_map _ h [] [] hne]
    apply hpre
    cases h with
    | nil => exact absurd rfl hne
    | cons a t => exact List.mem_cons_self a t
  simp only [ewaldPipeline]
  apply applyLayers_rowlen embA blk.ewald_layers hlayers
  intro r hr
  cases hsc : blk.ewald_scale_sum with
  | none =>
    rw [hsc] at hr
    obtain ⟨p, -, rfl⟩ := List.mem_map.1 hr
    rw [ewaldUpdateRow_length]
    exact hemb
  | some c =>
    rw [hsc] at hr
    obtain ⟨r0, hr0, rfl⟩ := List.mem_map.1 hr
    rw [List.length_map]
    obtain ⟨p, -, rfl⟩ := List.mem_map.1 hr0
    rw [ewaldUpdateRow_length]
    exact hemb

theorem ewaldForward_withParams (tcos tsin tsinc : ℚ → ℚ)
    (blk : EwaldBlock) (h x : Mat) (k : List Mat) (num_batch : ℕ)
    (batch_seg : List ℕ) (dot : Option Mat)
    (hret : blk.return_k_params = true) :
    blk.forward tcos tsin tsinc h x k num_batch batch_seg dot none
      = EwaldResult.withParams
          (ewaldPipeline tcos tsin blk h num_batch batch_seg
            (match dot with
              | none => computeDot k x batch_seg
              | some dm => dm)
            (computeSincDamping tsinc blk x ((k.headD []).length)))
          (match dot with
            | none => computeDot k x batch_seg
            | some dm => dm)
          (computeSincDamping tsinc blk x ((k.headD []).length)) := by
  simp only [EwaldBlock.forward]
  rw [if_pos hret]

/-- C1: for a fixed input, a second forward call that is handed back the
dot products and damping factors returned by a first call (which computed
them itself) returns exactly what a second from-scratch call returns. -/
theorem ewaldBlock_dot_caching (tcos tsin tsinc : ℚ → ℚ) (blk : EwaldBlock)
    (h x : Mat) (k : List Mat) (num_batch : ℕ) (batch_seg : List ℕ)
    (u d s : Mat) (hret : blk.return_k_params = true)
    (hfirst : blk.forward tcos tsin tsinc h x k num_batch batch_seg none none
      = EwaldResult.withParams u d s) :
    blk.forward tcos tsin tsinc h x k num_batch batch_seg (some d) (some s)
      = blk.forward tcos tsin tsinc h x k num_batch batch_seg none none := by
  rw [ewaldForward_withParams tcos tsin tsinc blk h x k num_batch batch_seg
    none hret] at hfirst
  obtain ⟨-, h2, h3⟩ := EwaldResult.withParams.inj hfirst
  rw [ewaldForward_withParams tcos tsin tsinc blk h x k num_batch batch_seg
    none hret]
  subst h2
  subst h3
  simp only [EwaldBlock.forward]
  rw [if_pos hret]

/-- C1 witness. -/
theorem ewaldBlock_dot_caching_witness :
    EwaldBlock.forward cosW sinW sincW ewaldPbcBlock [[1]] [[0, 0, 0]]
        [[[0, 0, 0]]] 1 [0] (some [[0]]) (some [[1]])
      = EwaldBlock.forward cosW sinW sincW ewaldPbcBlock [[1]] [[0, 0, 0]]
        [[[0, 0, 0]]] 1 [0] none none :=
  ewaldBlock_dot_caching cosW sinW sincW ewaldPbcBlock [[1]] [[0, 0, 0]]
    [[[0, 0, 0]]] 1 [0] [[1 / 100]] [[0]] [[1]] rfl (by
      simp [EwaldBlock.forward, ewaldPipeline, computeDot, computeSincDamping,
        computeKfilter, kfilterBase, sfMatrix, sfSum, ewaldUpdateRow,
        applyLayers, scaleFactorApply, ewaldPbcBlock, denseOne, idRow, cosW,
        sinW, sincW, dotList, matMul, transposeM, matVec, Dense.apply,
        List.range_succ])

/-- C4: under periodic boundary conditions, whenever forward computes the
damping factor itself, every damping entry it uses and returns is the
constant 1, for every atom and every reciprocal mode. -/
theorem ewaldBlock_pbc_damping_one (tcos tsin tsinc : ℚ → ℚ)
    (blk : EwaldBlock) (h x : Mat) (k : List Mat) (num_batch : ℕ)
    (batch_seg : List ℕ) (dot : Option Mat) (u d s : Mat)
    (hpbc : blk.use_pbc = true) (hret : blk.return_k_params = true)
    (hfwd : blk.forward tcos tsin tsinc h x k num_batch batch_seg dot none
      = EwaldResult.withParams u d s) :
    ∀ row ∈ s, ∀ q ∈ row, q = 1 := by
  rw [ewaldForward_withParams tcos tsin tsinc blk h x k num_batch batch_seg
    dot hret] at hfwd
  obtain ⟨-, -, hs⟩ := EwaldResult.withParams.inj hfwd
  subst hs
  intro row hrow q hq
  unfold computeSincDamping at hrow
  rw [hpbc, if_neg (by decide)] at hrow
  obtain ⟨xi, -, rfl⟩ := List.mem_map.1 hrow
  exact List.eq_of_mem_replicate hq

/-- C4 witness. -/
theorem ewaldBlock_pbc_damping_one_witness :
    ewaldPbcBlock.use_pbc = true
      ∧ ∀ row ∈ ([[(1 : ℚ)]] : Mat), ∀ q ∈ row, q = 1 :=
  ⟨rfl, ewaldBlock_pbc_damping_one cosW sinW sincW ewaldPbcBlock [[1]] [[0, 0, 0]]
    [[[0, 0, 0]]] 1 [0] none [[1 / 100]] [[0]] [[1]] rfl rfl (by
      simp [EwaldBlock.forward, ewaldPipeline, computeDot, computeSincDamping,
        computeKfilter, kfilterBase, sfMatrix, sfSum, ewaldUpdateRow,
        applyLayers, scaleFactorApply, ewaldPbcBlock, denseOne, idRow, cosW,
        sinW, sincW, dotList, matMul, transposeM, matVec, Dense.apply,
        List.range_succ])⟩

/-- C5: in the aperiodic case, whenever forward computes the damping
factor itself, each atom's damping row is the product of the three sinc
terms of its half-voxel-scaled position components, broadcast across all
reciprocal vectors, and it equals 1 for an atom at the origin when
`sinc 0 = 1`. -/
theorem ewaldBlock_aperiodic_damping (tcos tsin tsinc : ℚ → ℚ)
    (blk : EwaldBlock) (h x : Mat) (k : List Mat) (num_batch : ℕ)
    (batch_seg : List ℕ) (dot : Option Mat) (u d s : Mat)
    (hpbc : blk.use_pbc = false) (hret : blk.return_k_params = true)
    (hfwd : blk.forward tcos tsin tsinc h x k num_batch batch_seg dot none
      = EwaldResult.withParams u d s) :
    s.length = x.length
    ∧ (∀ a < x.length,
        s.getD a [] = List.replicate ((k.headD []).length)
          (tsinc ((1 / 2 : ℚ) * blk.delta_k * (x.getD a []).getD 0 0)
            * tsinc ((1 / 2 : ℚ) * blk.delta_k * (x.getD a []).getD 1 0)
            * tsinc ((1 / 2 : ℚ) * blk.delta_k * (x.getD a []).getD 2 0)))
    ∧ (tsinc 0 = 1 → ∀ a < x.length, x.getD a [] = [0, 0, 0] →
        ∀ q ∈ s.getD a [], q = 1) := by
  rw [ewaldForward_withParams tcos tsin tsinc blk h x k num_batch batch_seg
    dot hret] at hfwd
  obtain ⟨-, -, hs⟩ := EwaldResult.withParams.inj hfwd
  subst hs
  have hform : computeSincDamping tsinc blk x ((k.headD []).length)
      = x.map (fun xi => List.replicate ((k.headD []).length)
          (tsinc ((1 / 2 : ℚ) * blk.delta_k * xi.getD 0 0)
            * tsinc ((1 / 2 : ℚ) * blk.delta_k * xi.getD 1 0)
            * tsinc ((1 / 2 : ℚ) * blk.delta_k * xi.getD 2 0))) := by
    unfold computeSincDamping
    rw [hpbc, if_pos rfl]
  rw [hform]
  refine ⟨List.length_map x _, ?_, ?_⟩
  · intro a ha
    rw [getD_map_of_lt _ x a [] [] ha]
  · intro hsinc a ha hx0
    rw [getD_map_of_lt _ x a [] [] ha, hx0]
    intro q hq
    have hval : (tsinc ((1 / 2 : ℚ) * blk.delta_k * ([(0 : ℚ), 0, 0].getD 0 0))
        * tsinc ((1 / 2 : ℚ) * blk.delta_k * ([(0 : ℚ), 0, 0].getD 1 0))
        * tsinc ((1 / 2 : ℚ) * blk.delta_k * ([(0 : ℚ), 0, 0].getD 2 0))) = 1 := by
      simp [hsinc]
    rw [hval] at hq
    exact List.eq_of_mem_replicate hq

/-- C5 witness. -/
theorem ewaldBlock_aperiodic_damping_witness :
    ewaldAperiodicBlock.use_pbc = false ∧ sincW 0 = 1
      ∧ ∀ q ∈ ([[(1 : ℚ)]] : Mat).getD 0 [], q = 1 :=
  ⟨rfl, by simp [sincW],
   (ewaldBlock_aperiodic_damping cosW sinW sincW ewaldAperiodicBlock [[1]]
    [[0, 0, 0]] [[[0, 0, 0]]] 1 [0] none [[1 / 100]] [[0]] [[1]] rfl rfl (by
      simp [EwaldBlock.forward, ewaldPipeline, computeDot, computeSincDamping,
        computeKfilter, kfilterBase, sfMatrix, sfSum, ewaldUpdateRow,
        applyLayers, scaleFactorApply, ewaldAperiodicBlock, ewaldPbcBlock,
        denseOne, idRow, cosW, sinW, sincW, dotList, matMul, transposeM,
        matVec, Dense.apply, List.range_succ])).2.2
    (by simp [sincW]) 0 (by decide) rfl⟩

/-- C3: under periodic boundary conditions the Fourier-space filter is
the transposed product of the upprojection and downprojection weight
matrices, broadcast identically over every structure of the batch, and it
is a function of the current weights alone. -/
theorem ewaldBlock_kfilter_pbc (blk : EwaldBlock) (num_batch : ℕ)
    (hpbc : blk.use_pbc = true) :
    (computeKfilter blk num_batch).length = num_batch
    ∧ (∀ b < num_batch,
        (computeKfilter blk num_batch).getD b []
          = transposeM (matMul blk.up.weight blk.down.weight))
    ∧ (∀ b < num_batch, ∀ e < blk.up.weight.length,
        ∀ j < (blk.down.weight.headD []).length,
          (((computeKfilter blk num_batch).getD b []).getD j []).getD e 0
            = dotList (blk.up.weight.getD e [])
                (blk.down.weight.map (fun r => r.getD j 0)))
    ∧ ∀ blk2 : EwaldBlock, blk2.use_pbc = true →
        blk2.up.weight = blk.up.weight →
        blk2.down.weight = blk.down.weight →
        computeKfilter blk2 num_batch = computeKfilter blk num_batch := by
  have hbase : kfilterBase blk
      = transposeM (matMul blk.up.weight blk.down.weight) := by
    unfold kfilterBase
    rw [hpbc, if_pos rfl]
  refine ⟨List.length_replicate num_batch _, ?_, ?_, ?_⟩
  · intro b hb
    rw [computeKfilter_getD blk num_batch b hb, hbase]
  · intro b hb e he j hj
    rw [computeKfilter_getD blk num_batch b hb, hbase]
    exact transposeM_matMul_entry blk.up.weight blk.down.weight e j he hj
  · intro blk2 hpbc2 hup hdown
    unfold computeKfilter kfilterBase
    rw [hpbc, hpbc2, hup, hdown]
    simp

/-- C3 witness. -/
theorem ewaldBlock_kfilter_pbc_witness :
    (computeKfilter ewaldPbcBlock 2).length = 2
    ∧ (∀ b < 2, (computeKfilter ewaldPbcBlock 2).getD b []
        = transposeM (matMul ewaldPbcBlock.up.weight ewaldPbcBlock.down.weight))
    ∧ (∀ b < 2, ∀ e < ewaldPbcBlock.up.weight.length,
        ∀ j < (ewaldPbcBlock.down.weight.headD []).length,
          (((computeKfilter ewaldPbcBlock 2).getD b []).getD j []).getD e 0
            = dotList (ewaldPbcBlock.up.weight.getD e [])
                (ewaldPbcBlock.down.weight.map (fun r => r.getD j 0)))
    ∧ ∀ blk2 : EwaldBlock, blk2.use_pbc = true →
        blk2.up.weight = ewaldPbcBlock.up.weight →
        blk2.down.weight = ewaldPbcBlock.down.weight →
        computeKfilter blk2 2 = computeKfilter ewaldPbcBlock 2 :=
  ewaldBlock_kfilter_pbc ewaldPbcBlock 2 rfl

/-- C8: the per-atom aggregate formed by HadamardBlock before the scale
and update steps is sized to the full atom count, and every atom that
appears in no entry of `idx_t` receives an all-zero aggregate row. -/
theorem hadamardBlock_zero_aggregate (blk : HadamardBlock) (h bf : Mat)
    (idx_s idx_t : List ℕ) :
    (blk.aggregate h bf idx_s idx_t).length = h.length
    ∧ ∀ t < h.length, t ∉ idx_t →
        ∀ q ∈ (blk.aggregate h bf idx_s idx_t).getD t [], q = 0 := by
  constructor
  · simp [HadamardBlock.aggregate, scatterSum]
  · intro t ht htn q hq
    simp only [HadamardBlock.aggregate, scatterSum] at hq
    rw [getD_rangeMap_of_lt _ h.length t [] ht] at hq
    obtain ⟨e, -, rfl⟩ := List.mem_map.1 hq
    apply List.sum_eq_zero
    intro z hz
    obtain ⟨p, hp, rfl⟩ := List.mem_map.1 hz
    rcases p with ⟨p1, p2⟩
    have hp1 : p1 ∈ idx_t := (List.of_mem_zip hp).1
    exact if_neg ((fun heq => htn (heq ▸ hp1)) : ¬(p1 = t))

/-- C8 witness. -/
theorem hadamardBlock_zero_aggregate_witness :
    (hadamardBlockW.aggregate [[1], [2]] [[1]] [0] [0]).length = 2
    ∧ ∀ q ∈ (hadamardBlockW.aggregate [[1], [2]] [[1]] [0] [0]).getD 1 [],
        q = 0 :=
  ⟨(hadamardBlock_zero_aggregate hadamardBlockW [[1], [2]] [[1]] [0] [0]).1,
   fun q hq => (hadamardBlock_zero_aggregate hadamardBlockW [[1], [2]] [[1]]
     [0] [0]).2 1 (by decide) (by decide) q hq⟩

/-- C9: the rescaling step of HadamardBlock applies the configured scale
factor to the edge-message aggregate as the value being rescaled, with
the input embedding `h` as the (opaquely consumed) reference. -/
theorem hadamardBlock_scale_value_ref (blk : HadamardBlock) (h bf : Mat)
    (idx_s idx_t : List ℕ) :
    (blk.forward h bf idx_s idx_t
      = applyLayers blk.layers
          ((blk.aggregate h bf idx_s idx_t).map (fun row =>
            row.map (fun q => q * blk.scale_sum.scale_factor))))
    ∧ ∀ ref1 ref2 v : Mat,
        blk.scale_sum.apply ref1 v = blk.scale_sum.apply ref2 v :=
  ⟨rfl, fun _ _ _ => rfl⟩

/-- C2: for consistent inputs the update tensor has shape
(numAtoms, embSizeAtom) whatever numK and numBatch are; with
`return_k_params` the result additionally carries the dot products and
damping factors, without it only the update tensor is returned. -/
theorem ewaldBlock_output_shape (tcos tsin tsinc : ℚ → ℚ)
    (blk : EwaldBlock) (h x : Mat) (k : List Mat) (num_batch : ℕ)
    (batch_seg : List ℕ) (dot sinc_damping : Option Mat) (embA : ℕ)
    (hx : x.length = h.length) (hbs : batch_seg.length = h.length)
    (hpre : ∀ row ∈ h, (blk.pre_residual row).length = embA)
    (hlayers : ∀ f ∈ blk.ewald_layers, ∀ v : List ℚ, (f v).length = v.length)
    (hdot : ∀ dm, dot = some dm → dm.length = h.length)
    (hsinc : ∀ sm, sinc_damping = some sm → sm.length = h.length) :
    ∃ u : Mat, u.length = h.length ∧ (∀ r ∈ u, r.length = embA)
      ∧ blk.forward tcos tsin tsinc h x k num_batch batch_seg dot sinc_damping
        = if blk.return_k_params then
            EwaldResult.withParams u
              (resolveDot k x batch_seg dot)
              (resolveSinc tsinc blk x ((k.headD []).length) sinc_damping)
          else
            EwaldResult.updateOnly u := by
  have hd : (resolveDot k x batch_seg dot).length = h.length := by
    cases dot with
    | none => simp [resolveDot, computeDot, List.length_zipWith, hbs, hx]
    | some dm =>
      simp only [resolveDot]
      exact hdot dm rfl
  have hsm : (resolveSinc tsinc blk x ((k.headD []).length)
      sinc_damping).length = h.length := by
    cases sinc_damping with
    | none =>
      simp only [resolveSinc]
      unfold computeSincDamping
      by_cases hc : blk.use_pbc = false <;> simp [hc, hx]
    | some sm =>
      simp only [resolveSinc]
      exact hsinc sm rfl
  refine ⟨_, ewaldPipeline_length tcos tsin blk h num_batch batch_seg _ _
    hbs hd hsm, ?_, rfl⟩
  by_cases hne : h = []
  · subst hne
    intro r hr
    have h0 := ewaldPipeline_length tcos tsin blk [] num_batch batch_seg _ _
      hbs hd hsm
    rw [List.length_nil] at h0
    rw [List.eq_nil_of_length_eq_zero h0] at hr
    simp at hr
  · exact ewaldPipeline_rowlen tcos tsin blk h num_batch batch_seg _ _ embA
      hpre hlayers hne

/-- C2 witness. -/
theorem ewaldBlock_output_shape_witness :
    ∃ u : Mat, u.length = ([[(1 : ℚ)]] : Mat).length
      ∧ (∀ r ∈ u, r.length = 1)
      ∧ EwaldBlock.forward cosW sinW sincW ewaldPbcBlock [[1]] [[0, 0, 0]]
          [[[0, 0, 0]]] 1 [0] none none
        = if ewaldPbcBlock.return_k_params then
            EwaldResult.withParams u
              (computeDot [[[0, 0, 0]]] [[0, 0, 0]] [0])
              (computeSincDamping sincW ewaldPbcBlock [[0, 0, 0]]
                (([[[(0 : ℚ), 0, 0]]] : List Mat).headD []).length)
          else
            EwaldResult.updateOnly u :=
  ewaldBlock_output_shape cosW sinW sincW ewaldPbcBlock [[1]] [[0, 0, 0]]
    [[[0, 0, 0]]] 1 [0] none none 1 rfl rfl (by decide)
    (by intro f hf; simp [ewaldPbcBlock] at hf)
    (fun dm h0 => nomatch h0) (fun sm h0 => nomatch h0)

theorem Dense.apply_length (d : Dense) (v : List ℚ) :
    (d.apply v).length = min d.weight.length d.bias.length := by
  simp [Dense.apply, matVec, List.length_zipWith]

theorem headD_mem {α : Type} (l : List α) (d : α) (h : l ≠ []) :
    l.headD d ∈ l := by
  cases l with
  | nil => exact absurd rfl h
  | cons a t => exact List.mem_cons_self a t

theorem getD_mem_of_lt {α : Type} (l : List α) (i : ℕ) (d : α)
    (h : i < l.length) : l.getD i d ∈ l := by
  rw [List.getD_eq_getElem?_getD, List.getElem?_eq_getElem h]
  exact List.getElem_mem h

theorem zip_zipWith_map_triple {α β γ δ ε : Type} (F : α → δ → ε)
    (G : γ → δ) (a : List α) :
    ∀ (b : List β) (c : List γ),
      a.length = c.length → b.length = c.length →
      b.zip (List.zipWith F a (c.map G))
        = (a.zip (b.zip c)).map (fun p => (p.2.1, F p.1 (G p.2.2))) := by
  induction a with
  | nil =>
    intro b c hac hbc
    have hc : c = [] := List.eq_nil_of_length_eq_zero (by rw [← hac]; rfl)
    subst hc
    have hb : b = [] := List.eq_nil_of_length_eq_zero hbc
    subst hb
    rfl
  | cons x xs ih =>
    intro b c hac hbc
    cases c with
    | nil => simp at hac
    | cons z zs =>
      cases b with
      | nil => simp at hbc
      | cons y ys =>
        simp only [List.map_cons, List.zipWith_cons_cons, List.zip_cons_cons]
        rw [ih ys zs (by simpa using hac) (by simpa using hbc)]

/-- C7: jointly permuting the edge list (`idx_s`, `idx_t` and the rows of
`bf`) leaves the output of `HadamardBlock.forward` unchanged. -/
theorem hadamardBlock_perm_invariance (blk : HadamardBlock)
    (h bf bf2 : Mat) (idx_s idx_t idx_s2 idx_t2 : List ℕ) (embW : ℕ)
    (hs : idx_s.length = bf.length) (ht : idx_t.length = bf.length)
    (hs2 : idx_s2.length = bf2.length) (ht2 : idx_t2.length = bf2.length)
    (hW : blk.dense_bf.weight.length = embW)
    (hB : blk.dense_bf.bias.length = embW)
    (hidx : ∀ i ∈ idx_s, i < h.length)
    (hrow : ∀ r ∈ h, embW ≤ (blk.pre_residual r).length)
    (hperm : (idx_s.zip (idx_t.zip bf)).Perm (idx_s2.zip (idx_t2.zip bf2))) :
    blk.forward h bf idx_s idx_t = blk.forward h bf2 idx_s2 idx_t2 := by
  have hkey1 := zip_zipWith_map_triple
    (fun s mbf => List.zipWith (fun a b => a * b)
      ((h.map blk.pre_residual).getD s []) mbf)
    blk.dense_bf.apply idx_s idx_t bf hs ht
  have hkey2 := zip_zipWith_map_triple
    (fun s mbf => List.zipWith (fun a b => a * b)
      ((h.map blk.pre_residual).getD s []) mbf)
    blk.dense_bf.apply idx_s2 idx_t2 bf2 hs2 ht2
  have hElen : (idx_s.zip (idx_t.zip bf)).length = bf.length := by
    rw [List.length_zip, List.length_zip, hs, ht, Nat.min_self, Nat.min_self]
  have hElen2 : (idx_s2.zip (idx_t2.zip bf2)).length = bf2.length := by
    rw [List.length_zip, List.length_zip, hs2, ht2, Nat.min_self,
      Nat.min_self]
  have hmem2 : ∀ i ∈ idx_s2, i ∈ idx_s := by
    intro i hi
    rw [← List.map_fst_zip idx_s2 (idx_t2.zip bf2)
      (by rw [hs2, List.length_zip, ht2, Nat.min_self])] at hi
    obtain ⟨p, hp, rfl⟩ := List.mem_map.1 hi
    have hpE : p ∈ idx_s.zip (idx_t.zip bf) := hperm.mem_iff.2 hp
    rcases p with ⟨p1, p2⟩
    exact (List.of_mem_zip hpE).1
  have hxw : ∀ r ∈ List.zipWith (fun s mbf => List.zipWith
      (fun a b => a * b) ((h.map blk.pre_residual).getD s []) mbf)
      idx_s (bf.map blk.dense_bf.apply), r.length = embW := by
    intro r hrm
    obtain ⟨s0, hs0, mbf, hmbf, rfl⟩ :=
      exists_of_mem_zipWith _ idx_s (bf.map blk.dense_bf.apply) r hrm
    obtain ⟨b0, hb0, rfl⟩ := List.mem_map.1 hmbf
    rw [List.length_zipWith, Dense.apply_length, hW, hB, Nat.min_self]
    apply Nat.min_eq_right
    rw [getD_map_of_lt _ h s0 [] [] (hidx s0 hs0)]
    exact hrow _ (getD_mem_of_lt h s0 [] (hidx s0 hs0))
  have hxw2 : ∀ r ∈ List.zipWith (fun s mbf => List.zipWith
      (fun a b => a * b) ((h.map blk.pre_residual).getD s []) mbf)
      idx_s2 (bf2.map blk.dense_bf.apply), r.length = embW := by
    intro r hrm
    obtain ⟨s0, hs0, mbf, hmbf, rfl⟩ :=
      exists_of_mem_zipWith _ idx_s2 (bf2.map blk.dense_bf.apply) r hrm
    obtain ⟨b0, hb0, rfl⟩ := List.mem_map.1 hmbf
    rw [List.length_zipWith, Dense.apply_length, hW, hB, Nat.min_self]
    apply Nat.min_eq_right
    have hs0m : s0 ∈ idx_s := hmem2 s0 hs0
    rw [getD_map_of_lt _ h s0 [] [] (hidx s0 hs0m)]
    exact hrow _ (getD_mem_of_lt h s0 [] (hidx s0 hs0m))
  have hwidth : ((List.zipWith (fun s mbf => List.zipWith
      (fun a b => a * b) ((h.map blk.pre_residual).getD s []) mbf)
      idx_s (bf.map blk.dense_bf.apply)).headD []).length
      = ((List.zipWith (fun s mbf => List.zipWith
      (fun a b => a * b) ((h.map blk.pre_residual).getD s []) mbf)
      idx_s2 (bf2.map blk.dense_bf.apply)).headD []).length := by
    rcases eq_or_ne bf [] with hbf | hbfne
    · have hE : idx_s.zip (idx_t.zip bf) = [] := by
        apply List.eq_nil_of_length_eq_zero
        rw [hElen, hbf]
        rfl
      have hE2 : idx_s2.zip (idx_t2.zip bf2) = [] :=
        List.Perm.eq_nil (hE ▸ hperm.symm)
      have hbf2 : bf2 = [] := by
        apply List.eq_nil_of_length_eq_zero
        rw [← hElen2, hE2]
        rfl
      rw [hbf, hbf2]
      simp
    · have hbf2ne : bf2 ≠ [] := by
        intro hbf2
        have hE2 : idx_s2.zip (idx_t2.zip bf2) = [] := by
          apply List.eq_nil_of_length_eq_zero
          rw [hElen2, hbf2]
          rfl
        have hE : idx_s.zip (idx_t.zip bf) = [] :=
          List.Perm.eq_nil (hE2 ▸ hperm)
        have hb0 : bf.length = 0 := by rw [← hElen, hE]; rfl
        exact hbfne (List.eq_nil_of_length_eq_zero hb0)
      have hxne : List.zipWith (fun s mbf => List.zipWith
          (fun a b => a * b) ((h.map blk.pre_residual).getD s []) mbf)
          idx_s (bf.map blk.dense_bf.apply) ≠ [] := by
        intro hnil
        have hb0 : min idx_s.length (bf.map blk.dense_bf.apply).length = 0 := by
          rw [← List.length_zipWith, hnil]
          rfl
        rw [List.length_map, hs, Nat.min_self] at hb0
        exact hbfne (List.eq_nil_of_length_eq_zero hb0)
      have hxne2 : List.zipWith (fun s mbf => List.zipWith
          (fun a b => a * b) ((h.map blk.pre_residual).getD s []) mbf)
          idx_s2 (bf2.map blk.dense_bf.apply) ≠ [] := by
        intro hnil
        have hb0 : min idx_s2.length (bf2.map blk.dense_bf.apply).length = 0 := by
          rw [← List.length_zipWith, hnil]
          rfl
        rw [List.length_map, hs2, Nat.min_self] at hb0
        exact hbf2ne (List.eq_nil_of_length_eq_zero hb0)
      rw [hxw _ (headD_mem _ [] hxne), hxw2 _ (headD_mem _ [] hxne2)]
  have hagg : blk.aggregate h bf idx_s idx_t
      = blk.aggregate h bf2 idx_s2 idx_t2 := by
    simp only [HadamardBlock.aggregate, scatterSum]
    rw [hkey1, hkey2]
    rw [hwidth]
    apply List.map_congr_left
    intro t _
    apply List.map_congr_left
    intro e _
    exact List.Perm.sum_eq ((hperm.map _).map _)
  simp only [HadamardBlock.forward, hagg]

/-- C7 witness. -/
theorem hadamardBlock_perm_invariance_witness :
    hadamardBlockW.forward [[1], [2]] [[1], [1]] [0, 1] [1, 0]
      = hadamardBlockW.forward [[1], [2]] [[1], [1]] [1, 0] [0, 1] :=
  hadamardBlock_perm_invariance hadamardBlockW [[1], [2]] [[1], [1]]
    [[1], [1]] [0, 1] [1, 0] [1, 0] [0, 1] 1 rfl rfl rfl rfl rfl rfl
    (by decide) (by decide) (by decide)

theorem headD_append_left {α : Type} (l l2 : List α) (d : α) (h : l ≠ []) :
    (l ++ l2).headD d = l.headD d := by
  cases l with
  | nil => exact absurd rfl h
  | cons a t => rfl

theorem map_updateRow_zip_replicate (tcos tsin : ℚ → ℚ)
    (sfR sfI kf : List Mat) (numK emb : ℕ) (c : ℕ)
    (l : List (List ℚ × List ℚ)) (n : ℕ) (h : l.length = n) :
    ((List.replicate n c).zip l).map (fun p =>
      ewaldUpdateRow tcos tsin (sfR.getD p.1 []) (sfI.getD p.1 [])
        (kf.getD p.1 []) numK emb p.2.1 p.2.2)
      = l.map (fun r => ewaldUpdateRow tcos tsin (sfR.getD c [])
          (sfI.getD c []) (kf.getD c []) numK emb r.1 r.2) := by
  rw [zip_replicate_left c l n h, List.map_map]
  apply List.map_congr_left
  intro r _
  rfl

theorem computeDot_headD_length (K : Mat) (x : Mat) (n : ℕ)
    (hx : x.length = n) (hne : x ≠ []) :
    ((computeDot [K] x (List.replicate n 0)).headD []).length = K.length := by
  unfold computeDot
  rw [zipWith_replicate_left _ 0 x n hx]
  rw [headD_map _ x [] [] hne]
  simp

theorem sfMatrix_append_getD_zero (trig : ℚ → ℚ) (n1 n2 : ℕ)
    (hres1 hres2 d1 s1 d2 s2 : Mat)
    (hh1 : hres1.length = n1) (hd1 : d1.length = n1) (hs1 : s1.length = n1)
    (hne : hres1 ≠ []) (hdne : d1 ≠ []) :
    (sfMatrix trig 2 (List.replicate n1 0 ++ List.replicate n2 1)
        (hres1 ++ hres2) (d1 ++ d2) (s1 ++ s2)).getD 0 []
      = (sfMatrix trig 1 (List.replicate n1 0) hres1 d1 s1).getD 0 [] := by
  rw [sfMatrix_getD trig 2 _ _ _ _ 0 (by omega),
    sfMatrix_getD trig 1 _ _ _ _ 0 (by omega)]
  rw [headD_append_left d1 d2 [] hdne, headD_append_left hres1 hres2 [] hne]
  apply List.map_congr_left
  intro j _
  apply List.map_congr_left
  intro e _
  rw [sfSum_append trig 0 (List.replicate n1 0) (List.replicate n2 1)
    hres1 hres2 d1 d2 s1 s2 j e (by simp [hh1]) (by rw [hh1, hd1])
    (by rw [hd1, hs1])]
  rw [sfSum_replicate_ne trig 0 1 n2 hres2 d2 s2 (by omega) j e, add_zero]

theorem sfMatrix_append_getD_one (trig : ℚ → ℚ) (n1 n2 : ℕ)
    (hres1 hres2 d1 s1 d2 s2 : Mat)
    (hh1 : hres1.length = n1) (hd1 : d1.length = n1) (hs1 : s1.length = n1)
    (hh2 : hres2.length = n2) (hd2 : d2.length = n2) (hs2 : s2.length = n2)
    (hdne : d1 ≠ []) (hne : hres1 ≠ [])
    (hnk : (d1.headD []).length = (d2.headD []).length)
    (hem : (hres1.headD []).length = (hres2.headD []).length) :
    (sfMatrix trig 2 (List.replicate n1 0 ++ List.replicate n2 1)
        (hres1 ++ hres2) (d1 ++ d2) (s1 ++ s2)).getD 1 []
      = (sfMatrix trig 1 (List.replicate n2 0) hres2 d2 s2).getD 0 [] := by
  rw [sfMatrix_getD trig 2 _ _ _ _ 1 (by omega),
    sfMatrix_getD trig 1 _ _ _ _ 0 (by omega)]
  rw [headD_append_left d1 d2 [] hdne, headD_append_left hres1 hres2 [] hne,
    hnk, hem]
  apply List.map_congr_left
  intro j _
  apply List.map_congr_left
  intro e _
  rw [sfSum_append trig 1 (List.replicate n1 0) (List.replicate n2 1)
    hres1 hres2 d1 d2 s1 s2 j e (by simp [hh1]) (by rw [hh1, hd1])
    (by rw [hd1, hs1])]
  rw [sfSum_replicate_ne trig 1 0 n1 hres1 d1 s1 (by omega) j e, zero_add]
  rw [sfSum_replicate_self trig 1 n2 hres2 d2 s2 hh2 hd2 hs2 j e,
    sfSum_replicate_self trig 0 n2 hres2 d2 s2 hh2 hd2 hs2 j e]

theorem scaleFactorApply_append (c : ℚ) (A B ref refA refB : Mat) :
    scaleFactorApply c (A ++ B) ref
      = scaleFactorApply c A refA ++ scaleFactorApply c B refB := by
  simp [scaleFactorApply, List.map_append]

theorem ewaldForward_none (tcos tsin tsinc : ℚ → ℚ) (blk : EwaldBlock)
    (h x : Mat) (k : List Mat) (num_batch : ℕ) (batch_seg : List ℕ)
    (hret : blk.return_k_params = true) :
    blk.forward tcos tsin tsinc h x k num_batch batch_seg none none
      = EwaldResult.withParams
          (ewaldPipeline tcos tsin blk h num_batch batch_seg
            (computeDot k x batch_seg)
            (computeSincDamping tsinc blk x ((k.headD []).length)))
          (computeDot k x batch_seg)
          (computeSincDamping tsinc blk x ((k.headD []).length)) :=
  ewaldForward_withParams tcos tsin tsinc blk h x k num_batch batch_seg
    none hret

theorem ewaldPipeline_two_structures (tcos tsin : ℚ → ℚ)
    (blk : EwaldBlock) (h1 h2 d1 s1 d2 s2 : Mat)
    (hne1 : h1 ≠ []) (hne2 : h2 ≠ [])
    (hd1 : d1.length = h1.length) (hs1 : s1.length = h1.length)
    (hd2 : d2.length = h2.length) (hs2 : s2.length = h2.length)
    (hnk : (d1.headD []).length = (d2.headD []).length)
    (hemb : (blk.pre_residual (h1.headD [])).length
      = (blk.pre_residual (h2.headD [])).length) :
    ewaldPipeline tcos tsin blk (h1 ++ h2) 2
        (List.replicate h1.length 0 ++ List.replicate h2.length 1)
        (d1 ++ d2) (s1 ++ s2)
      = ewaldPipeline tcos tsin blk h1 1 (List.replicate h1.length 0) d1 s1
        ++ ewaldPipeline tcos tsin blk h2 1 (List.replicate h2.length 0)
            d2 s2 := by
  have hd1ne : d1 ≠ [] := by
    intro h0
    apply hne1
    apply List.eq_nil_of_length_eq_zero
    rw [← hd1, h0]
    rfl
  have hres1ne : h1.map blk.pre_residual ≠ [] := by
    intro h0
    exact hne1 (List.map_eq_nil_iff.1 h0)
  have hh1 : (h1.map blk.pre_residual).length = h1.length :=
    List.length_map h1 _
  have hh2 : (h2.map blk.pre_residual).length = h2.length :=
    List.length_map h2 _
  have hembm : ((h1.map blk.pre_residual).headD []).length
      = ((h2.map blk.pre_residual).headD []).length := by
    rw [headD_map _ h1 [] [] hne1, headD_map _ h2 [] [] hne2]
    exact hemb
  have hsfR0 := sfMatrix_append_getD_zero tcos h1.length h2.length
    (h1.map blk.pre_residual) (h2.map blk.pre_residual) d1 s1 d2 s2
    hh1 hd1 hs1 hres1ne hd1ne
  have hsfI0 := sfMatrix_append_getD_zero tsin h1.length h2.length
    (h1.map blk.pre_residual) (h2.map blk.pre_residual) d1 s1 d2 s2
    hh1 hd1 hs1 hres1ne hd1ne
  have hsfR1 := sfMatrix_append_getD_one tcos h1.length h2.length
    (h1.map blk.pre_residual) (h2.map blk.pre_residual) d1 s1 d2 s2
    hh1 hd1 hs1 hh2 hd2 hs2 hd1ne hres1ne hnk hembm
  have hsfI1 := sfMatrix_append_getD_one tsin h1.length h2.length
    (h1.map blk.pre_residual) (h2.map blk.pre_residual) d1 s1 d2 s2
    hh1 hd1 hs1 hh2 hd2 hs2 hd1ne hres1ne hnk hembm
  have hkf0 : (computeKfilter blk 2).getD 0 []
      = (computeKfilter blk 1).getD 0 [] := by
    rw [computeKfilter_getD blk 2 0 (by omega),
      computeKfilter_getD blk 1 0 (by omega)]
  have hkf1 : (computeKfilter blk 2).getD 1 []
      = (computeKfilter blk 1).getD 0 [] := by
    rw [computeKfilter_getD blk 2 1 (by omega),
      computeKfilter_getD blk 1 0 (by omega)]
  cases hscs : blk.ewald_scale_sum with
  | none =>
    simp only [ewaldPipeline, hscs]
    rw [List.map_append]
    rw [List.zip_append (show d1.length = s1.length by rw [hd1, hs1])]
    rw [List.zip_append
      (show (List.replicate h1.length (0 : ℕ)).length = (d1.zip s1).length by
        simp [hd1, hs1])]
    rw [List.map_append]
    rw [map_updateRow_zip_replicate tcos tsin _ _ _ _ _ 0 (d1.zip s1)
      h1.length (by simp [hd1, hs1])]
    rw [map_updateRow_zip_replicate tcos tsin _ _ _ _ _ 1 (d2.zip s2)
      h2.length (by simp [hd2, hs2])]
    rw [map_updateRow_zip_replicate tcos tsin _ _ _ _ _ 0 (d1.zip s1)
      h1.length (by simp [hd1, hs1])]
    rw [map_updateRow_zip_replicate tcos tsin _ _ _ _ _ 0 (d2.zip s2)
      h2.length (by simp [hd2, hs2])]
    rw [hsfR0, hsfI0, hsfR1, hsfI1, hkf0, hkf1]
    rw [headD_append_left d1 d2 [] hd1ne]
    rw [headD_append_left (h1.map blk.pre_residual)
      (h2.map blk.pre_residual) [] hres1ne]
    nth_rewrite 2 [hnk]
    nth_rewrite 2 [hembm]
    rw [applyLayers_append_mat]
  | some c =>
    simp only [ewaldPipeline, hscs]
    rw [List.map_append]
    rw [List.zip_append (show d1.length = s1.length by rw [hd1, hs1])]
    rw [List.zip_append
      (show (List.replicate h1.length (0 : ℕ)).length = (d1.zip s1).length by
        simp [hd1, hs1])]
    rw [List.map_append]
    rw [map_updateRow_zip_replicate tcos tsin _ _ _ _ _ 0 (d1.zip s1)
      h1.length (by simp [hd1, hs1])]
    rw [map_updateRow_zip_replicate tcos tsin _ _ _ _ _ 1 (d2.zip s2)
      h2.length (by simp [hd2, hs2])]
    rw [map_updateRow_zip_replicate tcos tsin _ _ _ _ _ 0 (d1.zip s1)
      h1.length (by simp [hd1, hs1])]
    rw [map_updateRow_zip_replicate tcos tsin _ _ _ _ _ 0 (d2.zip s2)
      h2.length (by simp [hd2, hs2])]
    rw [hsfR0, hsfI0, hsfR1, hsfI1, hkf0, hkf1]
    rw [headD_append_left d1 d2 [] hd1ne]
    rw [headD_append_left (h1.map blk.pre_residual)
      (h2.map blk.pre_residual) [] hres1ne]
    nth_rewrite 2 [hnk]
    nth_rewrite 2 [hembm]
    rw [scaleFactorApply_append c _ _ _ h1 h2]
    rw [applyLayers_append_mat]

/-- C6: running two independent single-structure inputs through the same
EwaldBlock separately and running them concatenated, with a batch segment
map assigning each atom to its structure, gives identical per-atom
update outputs. -/
theorem ewaldBlock_batch_invariance (tcos tsin tsinc : ℚ → ℚ)
    (blk : EwaldBlock) (h1 x1 h2 x2 K1 K2 : Mat)
    (u1 d1 s1 u2 d2 s2 uc dc sc : Mat)
    (hne1 : h1 ≠ []) (hne2 : h2 ≠ [])
    (hx1 : x1.length = h1.length) (hx2 : x2.length = h2.length)
    (hK : K1.length = K2.length)
    (hemb : (blk.pre_residual (h1.headD [])).length
      = (blk.pre_residual (h2.headD [])).length)
    (hret : blk.return_k_params = true)
    (e1 : blk.forward tcos tsin tsinc h1 x1 [K1] 1
      (List.replicate h1.length 0) none none
      = EwaldResult.withParams u1 d1 s1)
    (e2 : blk.forward tcos tsin tsinc h2 x2 [K2] 1
      (List.replicate h2.length 0) none none
      = EwaldResult.withParams u2 d2 s2)
    (ec : blk.forward tcos tsin tsinc (h1 ++ h2) (x1 ++ x2) [K1, K2] 2
      (List.replicate h1.length 0 ++ List.replicate h2.length 1) none none
      = EwaldResult.withParams uc dc sc) :
    uc = u1 ++ u2 := by
  have hx1ne : x1 ≠ [] := by
    intro h0
    apply hne1
    apply List.eq_nil_of_length_eq_zero
    rw [← hx1, h0]
    rfl
  have hx2ne : x2 ≠ [] := by
    intro h0
    apply hne2
    apply List.eq_nil_of_length_eq_zero
    rw [← hx2, h0]
    rfl
  rw [ewaldForward_none tcos tsin tsinc blk h1 x1 [K1] 1 _ hret] at e1
  rw [ewaldForward_none tcos tsin tsinc blk h2 x2 [K2] 1 _ hret] at e2
  rw [ewaldForward_none tcos tsin tsinc blk (h1 ++ h2) (x1 ++ x2) [K1, K2] 2
    _ hret] at ec
  obtain ⟨hu1, -, -⟩ := EwaldResult.withParams.inj e1
  obtain ⟨hu2, -, -⟩ := EwaldResult.withParams.inj e2
  obtain ⟨huc, -, -⟩ := EwaldResult.withParams.inj ec
  subst hu1
  subst hu2
  subst huc
  have hh12 : (([K1, K2] : List Mat).headD []) = K1 := rfl
  have hh1 : (([K1] : List Mat).headD []) = K1 := rfl
  have hh2 : (([K2] : List Mat).headD []) = K2 := rfl
  rw [hh12, hh1, hh2]
  rw [computeDot_two_structures K1 K2 x1 x2 h1.length h2.length hx1 hx2]
  rw [computeSincDamping_append tsinc blk x1 x2 K1.length]
  rw [show computeSincDamping tsinc blk x2 K1.length
    = computeSincDamping tsinc blk x2 K2.length by rw [hK]]
  apply ewaldPipeline_two_structures tcos tsin blk h1 h2 _ _ _ _ hne1 hne2
  · simp [computeDot, List.length_zipWith, hx1]
  · unfold computeSincDamping
    by_cases hc : blk.use_pbc = false <;> simp [hc, hx1]
  · simp [computeDot, List.length_zipWith, hx2]
  · unfold computeSincDamping
    by_cases hc : blk.use_pbc = false <;> simp [hc, hx2]
  · rw [computeDot_headD_length K1 x1 h1.length hx1 hx1ne,
      computeDot_headD_length K2 x2 h2.length hx2 hx2ne, hK]
  · exact hemb

/-- C6 witness. -/
theorem ewaldBlock_batch_invariance_witness :
    ([[(1 : ℚ) / 100], [1 / 50]] : Mat) = [[(1 : ℚ) / 100]] ++ [[1 / 50]] :=
  ewaldBlock_batch_invariance cosW sinW sincW ewaldPbcBlock
    [[1]] [[0, 0, 0]] [[2]] [[0, 0, 0]] [[0, 0, 0]] [[0, 0, 0]]
    [[1 / 100]] [[0]] [[1]] [[1 / 50]] [[0]] [[1]]
    [[1 / 100], [1 / 50]] [[0], [0]] [[1], [1]]
    (by decide) (by decide) rfl rfl rfl rfl rfl
    (by
      simp [EwaldBlock.forward, ewaldPipeline, computeDot, computeSincDamping,
        computeKfilter, kfilterBase, sfMatrix, sfSum, ewaldUpdateRow,
        applyLayers, scaleFactorApply, ewaldPbcBlock, denseOne, idRow, cosW,
        sinW, sincW, dotList, matMul, transposeM, matVec, Dense.apply,
        List.range_succ])
    (by
      simp [EwaldBlock.forward, ewaldPipeline, computeDot, computeSincDamping,
        computeKfilter, kfilterBase, sfMatrix, sfSum, ewaldUpdateRow,
        applyLayers, scaleFactorApply, ewaldPbcBlock, denseOne, idRow, cosW,
        sinW, sincW, dotList, matMul, transposeM, matVec, Dense.apply,
        List.range_succ]
      norm_num)
    (by
      simp [EwaldBlock.forward, ewaldPipeline, computeDot, computeSincDamping,
        computeKfilter, kfilterBase, sfMatrix, sfSum, ewaldUpdateRow,
        applyLayers, scaleFactorApply, ewaldPbcBlock, denseOne, idRow, cosW,
        sinW, sincW, dotList, matMul, transposeM, matVec, Dense.apply,
        List.range_succ, List.replicate]
      norm_num)

/-- C10: constructing a HadamardBlock always fails with a name-resolution
error, because `__init__` refers to the global `ScalingFactor`, which is
neither defined in the module nor imported. -/
theorem hadamardBlock_init_name_error (dense_bf : Dense) (c : ℚ)
    (pre_residual : List ℚ → List ℚ)
    (layers : List (List ℚ → List ℚ)) :
    HadamardBlock.init dense_bf c pre_residual layers
      = Except.error "NameError: name ScalingFactor is not defined" := by
  unfold HadamardBlock.init
  rw [if_neg (by decide)]

end EwaldMP
